/-
Verification of the trading-strategies repository core:
the Donchian breakout signal detector (src/signal_detector.py),
position sizing arithmetic (src/utils/position_sizing.py), and
the paginated historical-data fetcher (src/data_retriever.py).

Prices and timestamps are modelled as rationals (ℚ); pandas series of
floats with NaN are modelled as lists of `Option ℚ` where `none` plays
the role of NaN.
-/
import Mathlib

namespace Trading

/-- One OHLCV candle row, as produced by `_candles_to_dataframe`
(columns: time, open, high, low, close, volume, complete).
`time` is modelled as a rational number of seconds. -/
structure Candle where
  time : ℚ
  openP : ℚ
  high : ℚ
  low : ℚ
  close : ℚ
  volume : ℕ
  complete : Bool
deriving DecidableEq, Repr

/-- Trade side of a detected signal ('buy' | 'sell'). -/
inductive Side where
  | buy
  | sell
deriving DecidableEq, Repr

/-- The dict returned by `detect_signal`:
`{'side': ..., 'sl_dist': ..., 'entry_price': ...}`. -/
structure Signal where
  side : Side
  sl_dist : ℚ
  entry_price : ℚ
deriving DecidableEq, Repr

/-! ### pandas primitives used by the detector

`high.shift(1)` and `.rolling(w).max()` / `.rolling(w).min()` over a
series, with `none` standing for NaN. -/

/-- pandas `Series.shift(1)`: prepend a NaN and drop the last element. -/
def shift1 (l : List (Option ℚ)) : List (Option ℚ) :=
  none :: l.dropLast

/-- Maximum of a list of rationals (`none` on the empty list). -/
def listMax : List ℚ → Option ℚ
  | [] => none
  | v :: vs => some (vs.foldl max v)

/-- Minimum of a list of rationals (`none` on the empty list). -/
def listMin : List ℚ → Option ℚ
  | [] => none
  | v :: vs => some (vs.foldl min v)

/-- pandas `Series.rolling(w).max()` evaluated at index `t`: the window is
the `w` positions `t-w+1 .. t`; with the default `min_periods = w` the
result is NaN unless the window is full and free of NaN. -/
def rollingMaxAt (w : ℕ) (l : List (Option ℚ)) (t : ℕ) : Option ℚ :=
  if 1 ≤ w ∧ w ≤ t + 1 ∧ t < l.length then
    let window := (l.drop (t + 1 - w)).take w
    if window.all Option.isSome then listMax (window.filterMap id) else none
  else none

/-- pandas `Series.rolling(w).min()` evaluated at index `t` (see
`rollingMaxAt`). -/
def rollingMinAt (w : ℕ) (l : List (Option ℚ)) (t : ℕ) : Option ℚ :=
  if 1 ≤ w ∧ w ≤ t + 1 ∧ t < l.length then
    let window := (l.drop (t + 1 - w)).take w
    if window.all Option.isSome then listMin (window.filterMap id) else none
  else none

/-- `upper = high.shift(1).rolling(dc_period).max()` evaluated at index `t`. -/
def upperAt (df : List Candle) (dcPeriod t : ℕ) : Option ℚ :=
  rollingMaxAt dcPeriod (shift1 (df.map (fun c => some c.high))) t

/-- `lower = low.shift(1).rolling(dc_period).min()` evaluated at index `t`. -/
def lowerAt (df : List Candle) (dcPeriod t : ℕ) : Option ℚ :=
  rollingMinAt dcPeriod (shift1 (df.map (fun c => some c.low))) t

/-- Modelled from the spec: the true range at bar `i`, used by the external
`pandas_ta.atr` call (the library is not part of this repository).  The
spec's glossary defines it as "max of high-low, high-prevclose,
low-prevclose"; it is undefined at bar 0 where no previous close exists. -/
def trAt (df : List Candle) (i : ℕ) : Option ℚ :=
  match df.get? i, df.get? (i - 1) with
  | some c, some p =>
      if 1 ≤ i then
        some (max (c.high - c.low) (max |c.high - p.close| |c.low - p.close|))
      else none
  | _, _ => none

/-- Modelled from the spec: `ta.atr(high, low, close, length=atr_period)` from
the external pandas_ta library, "a volatility measure averaging the true
range over a window" of `atr_period` bars; it is defined at index `t`
exactly when `t ≥ atr_period` (the window `t-atr_period+1 .. t` of true
ranges avoids the undefined bar 0). -/
def atrAt (df : List Candle) (atrPeriod t : ℕ) : Option ℚ :=
  if 1 ≤ atrPeriod ∧ atrPeriod ≤ t ∧ t < df.length then
    let trs := ((List.range atrPeriod).map (fun j => trAt df (t - j))).filterMap id
    some (trs.foldr (· + ·) 0 / atrPeriod)
  else none

/-- `detect_signal(df, dc_period, atr_period, sl_atr_mult, min_channel_pct)`
from src/signal_detector.py.  The source reads `iloc[-1]`, presupposing a
nonempty frame, so the `none` branch for the empty list is unreachable for
its callers; the source tests `pd.isna` on `last_upper` and `last_atr`
only, but `lower` is NaN exactly when `upper` is (lemma
`lowerAt_eq_none_iff_upperAt` below), so matching all three is equivalent. -/
def detect_signal (df : List Candle) (dcPeriod atrPeriod : ℕ)
    (slAtrMult minChannelPct : ℚ) : Option Signal :=
  match df.getLast? with
  | none => none
  | some lastBar =>
    let t := df.length - 1
    match upperAt df dcPeriod t, lowerAt df dcPeriod t, atrAt df atrPeriod t with
    | some lastUpper, some lastLower, some lastAtr =>
      if (lastUpper - lastLower) / lastBar.close < minChannelPct then none
      else
        let slDist := lastAtr * slAtrMult
        if lastBar.close > lastUpper then
          some ⟨Side.buy, slDist, lastBar.close⟩
        else if lastBar.close < lastLower then
          some ⟨Side.sell, slDist, lastBar.close⟩
        else none
    | _, _, _ => none

/-! ### Position sizing (src/utils/position_sizing.py)

Python `ValueError`s are modelled by `Except SizingError`; each
constructor corresponds to one distinct `raise` site. -/

/-- The distinct `ValueError`s raised by src/utils/position_sizing.py. -/
inductive SizingError where
  /-- `"{name} must be positive, got {value}"` from `validate_positive`. -/
  | notPositive (name : String)
  /-- `"Risk percent must be between 0 and 100"` from `validate_risk_percent`. -/
  | riskOutOfRange
  /-- `"Either 'pip_value' or 'instrument' must be provided"`. -/
  | missingPipValueAndInstrument
  /-- `"Instrument '{instrument}' not supported"`. -/
  | unsupportedInstrument (instrument : String)
  /-- `"Account currency '{currency}' not yet supported"`. -/
  | unsupportedAccountCurrency (currency : String)
deriving DecidableEq, Repr

/-- `PIP_CONVERSIONS`: decimal places per pip for each supported pair. -/
def PIP_CONVERSIONS : List (String × ℕ) :=
  [("EUR_USD", 4), ("GBP_USD", 4), ("AUD_USD", 4), ("NZD_USD", 4),
   ("USD_JPY", 2), ("USD_CHF", 4), ("USD_CAD", 4), ("EUR_GBP", 4),
   ("EUR_JPY", 2)]

/-- `PIP_VALUES`: pip value per standard lot in USD for each supported pair. -/
def PIP_VALUES : List (String × ℚ) :=
  [("EUR_USD", 10), ("GBP_USD", 10), ("AUD_USD", 10), ("NZD_USD", 10),
   ("USD_JPY", 912/100), ("USD_CHF", 1015/100), ("USD_CAD", 10),
   ("EUR_GBP", 10), ("EUR_JPY", 912/100)]

/-- `validate_risk_percent(risk_percent)`: error unless `0 < r <= 100`. -/
def validate_risk_percent (risk_percent : ℚ) : Except SizingError Unit :=
  if ¬(0 < risk_percent ∧ risk_percent ≤ 100) then
    Except.error SizingError.riskOutOfRange
  else Except.ok ()

/-- `validate_positive(value, name)`: error unless `value > 0`. -/
def validate_positive (value : ℚ) (name : String) : Except SizingError Unit :=
  if value ≤ 0 then Except.error (SizingError.notPositive name) else Except.ok ()

/-- `calculate_risk_amount(account_equity, risk_percent)`. -/
def calculate_risk_amount (account_equity risk_percent : ℚ) :
    Except SizingError ℚ := do
  validate_positive account_equity "account_equity"
  validate_risk_percent risk_percent
  return account_equity * risk_percent / 100

/-- `get_pip_value(instrument, account_currency)` (the source defaults
`account_currency` to `"USD"`; callers here pass it explicitly). -/
def get_pip_value (instrument : String) (account_currency : String) :
    Except SizingError ℚ :=
  match PIP_VALUES.lookup instrument with
  | none => Except.error (SizingError.unsupportedInstrument instrument)
  | some v =>
    if account_currency ≠ "USD" then
      Except.error (SizingError.unsupportedAccountCurrency account_currency)
    else Except.ok v

/-- `pips_to_price(pips, instrument)`: `pips * 10 ** (-decimal_places)`. -/
def pips_to_price (pips : ℚ) (instrument : String) : Except SizingError ℚ :=
  match PIP_CONVERSIONS.lookup instrument with
  | none => Except.error (SizingError.unsupportedInstrument instrument)
  | some decimalPlaces => Except.ok (pips * (10 : ℚ) ^ (-(decimalPlaces : ℤ)))

/-- `price_to_pips(price_distance, instrument)`: `price / 10 ** (-dp)`. -/
def price_to_pips (price_distance : ℚ) (instrument : String) :
    Except SizingError ℚ :=
  match PIP_CONVERSIONS.lookup instrument with
  | none => Except.error (SizingError.unsupportedInstrument instrument)
  | some decimalPlaces =>
      Except.ok (price_distance / (10 : ℚ) ^ (-(decimalPlaces : ℤ)))

/-- Python `round` on a rational: round half to even (banker's rounding). -/
def pyRound (q : ℚ) : ℤ :=
  if q - ⌊q⌋ < 1/2 then ⌊q⌋
  else if q - ⌊q⌋ > 1/2 then ⌊q⌋ + 1
  else if ⌊q⌋ % 2 = 0 then ⌊q⌋ else ⌊q⌋ + 1

/-- Python `round(x, 2)` on a rational. -/
def pyRound2 (q : ℚ) : ℚ := (pyRound (q * 100) : ℚ) / 100

/-- `calculate_position_size(account_equity, risk_percent, stop_loss_pips,
pip_value, instrument)` from src/utils/position_sizing.py. -/
def calculate_position_size (account_equity risk_percent stop_loss_pips : ℚ)
    (pip_value : Option ℚ) (instrument : Option String) :
    Except SizingError ℚ := do
  validate_positive account_equity "account_equity"
  validate_risk_percent risk_percent
  validate_positive stop_loss_pips "stop_loss_pips"
  let pv ←
    match pip_value, instrument with
    | none, none => Except.error SizingError.missingPipValueAndInstrument
    | none, some instr => get_pip_value instr "USD"
    | some v, _ => do
        validate_positive v "pip_value"
        pure v
  let riskAmount ← calculate_risk_amount account_equity risk_percent
  let positionSize := riskAmount / (stop_loss_pips * pv)
  return pyRound2 positionSize

/-- The condition under which the pip value resolves without error:
either an explicit positive `pip_value`, or no `pip_value` and a supported
`instrument` (used to state the error-handling claim). -/
def pipValueUsable (pip_value : Option ℚ) (instrument : Option String) : Prop :=
  match pip_value, instrument with
  | some v, _ => 0 < v
  | none, some instr => (PIP_VALUES.lookup instr).isSome
  | none, none => False

/-! ### Paginated history fetcher (src/data_retriever.py)

Timestamps are rationals (seconds); the upstream `client.get_candles` is
an abstract function from a `[from, to)` window to the page of candles
it returns.  The source's `while` loop is modelled with explicit fuel
(`none` = fuel exhausted, which the terminating source never hits). -/

/-- The contract of `df.sort_values("time")`: pandas' default sort kind,
`quicksort`, guarantees only that the result is a permutation of the input
ordered by non-decreasing `time`; the relative order of rows with EQUAL
`time` is unspecified (only `kind='mergesort'/'stable'` would fix it).
Theorems about the fetcher's output quantify over any list satisfying
this contract. -/
def IsSortValuesResult (l sorted : List Candle) : Prop :=
  List.Perm l sorted ∧ sorted.Pairwise (fun a b => a.time ≤ b.time)

/-- One admissible `sort_values` outcome (a stable insertion step):
`insertByTime` places a candle before the first resident with a
greater-or-equal time.  This is only a computable representative of the
unspecified tie order — see `IsSortValuesResult`. -/
def insertByTime (c : Candle) : List Candle → List Candle
  | [] => [c]
  | d :: ds => if c.time ≤ d.time then c :: d :: ds else d :: insertByTime c ds

/-- A computable representative of `sort_values("time")` with stable
(first-listed-first) tie order; `sortValues_result_sortByTime` below shows
it satisfies `IsSortValuesResult`.  The source's default quicksort does
not promise this tie order. -/
def sortByTime : List Candle → List Candle
  | [] => []
  | c :: cs => insertByTime c (sortByTime cs)

/-- `df.drop_duplicates(subset=["time"], keep="last")`: keep each row
that is the last one bearing its `time` value. -/
def dedupKeepLast : List Candle → List Candle
  | [] => []
  | c :: cs =>
    if cs.any (fun d => d.time == c.time) then dedupKeepLast cs
    else c :: dedupKeepLast cs

/-- `_candles_to_dataframe`: sort by time ascending, then de-duplicate by
time keeping the last occurrence.  Executes with the stable representative
`sortByTime`; theorems that depend on the tie order quantify over
`IsSortValuesResult` instead. -/
def candlesToDataframe (candles : List Candle) : List Candle :=
  dedupKeepLast (sortByTime candles)

/-- The body of `_fetch_with_pagination`'s `while current_from < to_dt`
loop, with explicit state `(currentFrom, allCandles, requestCount)` and
fuel.  `getCandles from to` models `client.get_candles` for the window
`[from, to)`; `candleSeconds` is `GRANULARITY_SECONDS[granularity]` and
`maxCandles = 5000`. -/
def fetchLoop (getCandles : ℚ → ℚ → List Candle) (candleSeconds : ℚ)
    (maxCandles : ℕ) (toDt : ℚ) :
    ℕ → ℚ → List Candle → ℕ → Option (List Candle × ℕ)
  | 0, _, _, _ => none
  | fuel + 1, currentFrom, allCandles, requestCount =>
    if currentFrom < toDt then
      let chunkEnd := min (currentFrom + candleSeconds * maxCandles) toDt
      let candles := getCandles currentFrom chunkEnd
      match candles.getLast? with
      | none => some (allCandles, requestCount)
      | some lastCandle =>
        let allCandles' := allCandles ++ candles
        let requestCount' := requestCount + 1
        let currentFrom' := lastCandle.time + candleSeconds
        if toDt ≤ currentFrom' then some (allCandles', requestCount')
        else if candles.length < maxCandles ∧ toDt ≤ chunkEnd then
          some (allCandles', requestCount')
        else
          fetchLoop getCandles candleSeconds maxCandles toDt
            fuel currentFrom' allCandles' requestCount'
    else some (allCandles, requestCount)

/-- `_fetch_with_pagination(instrument, granularity, from_dt, to_dt, ...)`:
run the pagination loop from `from_dt` with empty accumulator. -/
def fetch_with_pagination (getCandles : ℚ → ℚ → List Candle)
    (candleSeconds : ℚ) (maxCandles : ℕ) (fromDt toDt : ℚ) (fuel : ℕ) :
    Option (List Candle × ℕ) :=
  fetchLoop getCandles candleSeconds maxCandles toDt fuel fromDt [] 0

/-- `fetch_historical_data` after validation: paginate, and if no candles
were retrieved return the empty table, else `_candles_to_dataframe`. -/
def fetch_historical_data (getCandles : ℚ → ℚ → List Candle)
    (candleSeconds : ℚ) (maxCandles : ℕ) (fromDt toDt : ℚ) (fuel : ℕ) :
    Option (List Candle) :=
  match fetch_with_pagination getCandles candleSeconds maxCandles fromDt toDt fuel with
  | none => none
  | some (allCandles, _) =>
    if allCandles.isEmpty then some [] else some (candlesToDataframe allCandles)

/-! ### Concrete inputs used by the witnesses -/

/-- A candle with flat open/close and the given time/high/low/close. -/
def mkCandle (t h l c : ℚ) : Candle :=
  ⟨t, c, h, l, c, 0, true⟩

/-- Four bars whose last close (13) breaks the 2-bar prior high (12). -/
def dfBreakout : List Candle :=
  [mkCandle 0 10 9 9, mkCandle 1 11 10 10, mkCandle 2 12 11 11,
   mkCandle 3 14 13 13]

/-- Four bars whose last close (8) breaks the 2-bar prior low (10). -/
def dfBreakdown : List Candle :=
  [mkCandle 0 13 12 12, mkCandle 1 12 11 11, mkCandle 2 11 10 10,
   mkCandle 3 9 8 8]

/-- Two bars only: far fewer than the default 40-bar warm-up history. -/
def dfShort : List Candle :=
  [mkCandle 0 10 9 9, mkCandle 1 11 10 10]

/-- Three flat bars then a close above the prior high, while the channel
width is zero: the volatility filter must suppress the breakout. -/
def dfNarrowBreak : List Candle :=
  [mkCandle 0 100 100 100, mkCandle 1 100 100 100, mkCandle 2 100 100 100,
   mkCandle 3 (201/2) 100 (2001/20)]

/-- Two pages sharing the timestamp 1: the later page carries a different
high so the de-duplication choice is observable. -/
def pagesW : List (List Candle) :=
  [[mkCandle 0 10 9 9, mkCandle 1 11 10 10],
   [mkCandle 1 12 11 11, mkCandle 2 13 12 12]]

/-- A time-ordered permutation of `pagesW.flatten` that an unstable sort
may produce: the two candles sharing timestamp 1 appear in the order
opposite to their fetch order. -/
def sortedAltW : List Candle :=
  [mkCandle 0 10 9 9, mkCandle 1 12 11 11, mkCandle 1 11 10 10,
   mkCandle 2 13 12 12]

/-- Four perfectly flat bars: channel width 0, inside the noise filter. -/
def dfFlat : List Candle :=
  [mkCandle 0 100 100 100, mkCandle 1 100 100 100, mkCandle 2 100 100 100,
   mkCandle 3 100 100 100]

/-! ## Lemmas: rolling-window bookkeeping -/

theorem take_drop_dropLast {α : Type _} (l : List α) (k p : ℕ)
    (h : k + p + 1 ≤ l.length) :
    (l.dropLast.drop k).take p = (l.drop k).take p := by
  rw [List.dropLast_eq_take, List.take_drop, List.take_drop, List.take_take,
    Nat.min_eq_left (by omega)]

theorem filterMap_id_map_some {α β : Type _} (f : α → β) (l : List α) :
    (l.map (fun a => some (f a))).filterMap id = l.map f := by
  induction l with
  | nil => rfl
  | cons a l ih => simp [ih]

theorem all_isSome_map_some {α β : Type _} (f : α → β) (l : List α) :
    (l.map (fun a => some (f a))).all Option.isSome = true := by
  induction l with
  | nil => rfl
  | cons a l ih => simp [ih]

theorem shift1_window_eq (f : Candle → ℚ) (df : List Candle) {p t : ℕ}
    (hpt : p ≤ t) (ht : t < df.length) :
    ((shift1 (df.map (fun c => some (f c)))).drop (t + 1 - p)).take p
      = ((df.drop (t - p)).take p).map (fun c => some (f c)) := by
  have h1 : t + 1 - p = (t - p) + 1 := by omega
  simp only [shift1, h1, List.drop_succ_cons, ← List.map_dropLast,
    ← List.map_drop, ← List.map_take]
  rw [take_drop_dropLast _ _ _ (by omega)]

theorem shift1_length (l : List (Option ℚ)) :
    (shift1 l).length = l.length - 1 + 1 := by
  simp [shift1]

theorem le_foldl_max (v : ℚ) (vs : List ℚ) : ∀ x ∈ v :: vs, x ≤ vs.foldl max v := by
  induction vs generalizing v with
  | nil => intro x hx; simp at hx; simp [hx]
  | cons w ws ih =>
    intro x hx
    rcases List.mem_cons.mp hx with hxv | hx'
    · calc x = v := hxv
        _ ≤ max v w := le_max_left v w
        _ ≤ ws.foldl max (max v w) := ih (max v w) _ (List.mem_cons_self _ _)
        _ = (w :: ws).foldl max v := rfl
    · rcases List.mem_cons.mp hx' with hxw | hxws
      · calc x = w := hxw
          _ ≤ max v w := le_max_right v w
          _ ≤ ws.foldl max (max v w) := ih (max v w) _ (List.mem_cons_self _ _)
          _ = (w :: ws).foldl max v := rfl
      · exact ih (max v w) x (List.mem_cons_of_mem _ hxws)

theorem foldl_min_le (v : ℚ) (vs : List ℚ) : ∀ x ∈ v :: vs, vs.foldl min v ≤ x := by
  induction vs generalizing v with
  | nil => intro x hx; simp at hx; simp [hx]
  | cons w ws ih =>
    intro x hx
    rcases List.mem_cons.mp hx with hxv | hx'
    · calc (w :: ws).foldl min v = ws.foldl min (min v w) := rfl
        _ ≤ min v w := ih (min v w) _ (List.mem_cons_self _ _)
        _ ≤ v := min_le_left v w
        _ = x := hxv.symm
    · rcases List.mem_cons.mp hx' with hxw | hxws
      · calc (w :: ws).foldl min v = ws.foldl min (min v w) := rfl
          _ ≤ min v w := ih (min v w) _ (List.mem_cons_self _ _)
          _ ≤ w := min_le_right v w
          _ = x := hxw.symm
      · exact ih (min v w) x (List.mem_cons_of_mem _ hxws)

theorem le_listMax {l : List ℚ} {x m : ℚ} (hx : x ∈ l) (hm : listMax l = some m) :
    x ≤ m := by
  cases l with
  | nil => cases hx
  | cons v vs =>
    have : vs.foldl max v = m := by simpa [listMax] using hm
    exact this ▸ le_foldl_max v vs x hx

theorem listMin_le {l : List ℚ} {x m : ℚ} (hx : x ∈ l) (hm : listMin l = some m) :
    m ≤ x := by
  cases l with
  | nil => cases hx
  | cons v vs =>
    have : vs.foldl min v = m := by simpa [listMin] using hm
    exact this ▸ foldl_min_le v vs x hx

theorem listMax_isSome {l : List ℚ} (h : l ≠ []) : (listMax l).isSome = true := by
  cases l with
  | nil => exact absurd rfl h
  | cons v vs => rfl

theorem listMin_isSome {l : List ℚ} (h : l ≠ []) : (listMin l).isSome = true := by
  cases l with
  | nil => exact absurd rfl h
  | cons v vs => rfl

/-! ## Lemmas: the Donchian channel bounds -/

theorem upperAt_eq_listMax {df : List Candle} {p t : ℕ} (hp : 1 ≤ p)
    (hpt : p ≤ t) (ht : t < df.length) :
    upperAt df p t
      = listMax (((df.drop (t - p)).take p).map (fun c => c.high)) := by
  unfold upperAt rollingMaxAt
  rw [if_pos ⟨hp, by omega, by
    rw [shift1_length]; simp only [List.length_map]; omega⟩]
  simp only [shift1_window_eq (fun c => c.high) df hpt ht, all_isSome_map_some,
    filterMap_id_map_some, if_true]

theorem lowerAt_eq_listMin {df : List Candle} {p t : ℕ} (hp : 1 ≤ p)
    (hpt : p ≤ t) (ht : t < df.length) :
    lowerAt df p t
      = listMin (((df.drop (t - p)).take p).map (fun c => c.low)) := by
  unfold lowerAt rollingMinAt
  rw [if_pos ⟨hp, by omega, by
    rw [shift1_length]; simp only [List.length_map]; omega⟩]
  simp only [shift1_window_eq (fun c => c.low) df hpt ht, all_isSome_map_some,
    filterMap_id_map_some, if_true]

theorem upperAt_eq_none_of_lt (df : List Candle) {p t : ℕ} (h : t < p) :
    upperAt df p t = none := by
  unfold upperAt rollingMaxAt
  split
  · next hg =>
      have hp : p = t + 1 := by omega
      subst hp
      simp [shift1]
  · rfl

theorem lowerAt_eq_none_of_lt (df : List Candle) {p t : ℕ} (h : t < p) :
    lowerAt df p t = none := by
  unfold lowerAt rollingMinAt
  split
  · next hg =>
      have hp : p = t + 1 := by omega
      subst hp
      simp [shift1]
  · rfl

theorem upperAt_eq_none (df : List Candle) {p t : ℕ}
    (hc : ¬(1 ≤ p ∧ p ≤ t ∧ t < df.length)) : upperAt df p t = none := by
  rcases Nat.lt_or_ge t p with h | h
  · exact upperAt_eq_none_of_lt df h
  · unfold upperAt rollingMaxAt
    rw [if_neg]
    rintro ⟨h1, _, h3⟩
    rw [shift1_length] at h3
    simp only [List.length_map] at h3
    omega

theorem lowerAt_eq_none (df : List Candle) {p t : ℕ}
    (hc : ¬(1 ≤ p ∧ p ≤ t ∧ t < df.length)) : lowerAt df p t = none := by
  rcases Nat.lt_or_ge t p with h | h
  · exact lowerAt_eq_none_of_lt df h
  · unfold lowerAt rollingMinAt
    rw [if_neg]
    rintro ⟨h1, _, h3⟩
    rw [shift1_length] at h3
    simp only [List.length_map] at h3
    omega

theorem window_ne_nil {df : List Candle} {p t : ℕ} (hp : 1 ≤ p) (hpt : p ≤ t)
    (ht : t < df.length) : (df.drop (t - p)).take p ≠ [] := by
  have : ((df.drop (t - p)).take p).length = p := by
    rw [List.length_take, List.length_drop]
    omega
  intro hnil
  rw [hnil] at this
  simp at this
  omega

theorem upperAt_isSome_iff {df : List Candle} {p t : ℕ} :
    (upperAt df p t).isSome = true ↔ (1 ≤ p ∧ p ≤ t ∧ t < df.length) := by
  constructor
  · intro h
    by_contra hc
    rw [upperAt_eq_none df hc] at h
    cases h
  · rintro ⟨h1, h2, h3⟩
    rw [upperAt_eq_listMax h1 h2 h3]
    exact listMax_isSome (by simpa using window_ne_nil h1 h2 h3)

theorem lowerAt_isSome_iff {df : List Candle} {p t : ℕ} :
    (lowerAt df p t).isSome = true ↔ (1 ≤ p ∧ p ≤ t ∧ t < df.length) := by
  constructor
  · intro h
    by_contra hc
    rw [lowerAt_eq_none df hc] at h
    cases h
  · rintro ⟨h1, h2, h3⟩
    rw [lowerAt_eq_listMin h1 h2 h3]
    exact listMin_isSome (by simpa using window_ne_nil h1 h2 h3)

/-- `lower` is NaN exactly when `upper` is: the source's
`pd.isna(last_upper) or pd.isna(last_atr)` test therefore also rules out
an undefined `lower`. -/
theorem lowerAt_eq_none_iff_upperAt {df : List Candle} {p t : ℕ} :
    lowerAt df p t = none ↔ upperAt df p t = none := by
  rw [← Option.not_isSome_iff_eq_none, ← Option.not_isSome_iff_eq_none,
    upperAt_isSome_iff, lowerAt_isSome_iff]

theorem lowerAt_le_upperAt {df : List Candle} {p t : ℕ} {u lo : ℚ}
    (hwf : ∀ c ∈ df, c.low ≤ c.high)
    (hu : upperAt df p t = some u) (hlo : lowerAt df p t = some lo) :
    lo ≤ u := by
  obtain ⟨h1, h2, h3⟩ : 1 ≤ p ∧ p ≤ t ∧ t < df.length :=
    upperAt_isSome_iff.mp (by rw [hu]; rfl)
  rw [upperAt_eq_listMax h1 h2 h3] at hu
  rw [lowerAt_eq_listMin h1 h2 h3] at hlo
  obtain ⟨c, cs, hcons⟩ := List.exists_cons_of_ne_nil (window_ne_nil h1 h2 h3)
  have hmem : c ∈ (df.drop (t - p)).take p := by rw [hcons]; exact List.mem_cons_self _ _
  have hcdf : c ∈ df := List.drop_subset _ _ (List.take_subset _ _ hmem)
  have hhigh : c.high ≤ u := le_listMax (List.mem_map_of_mem _ hmem) hu
  have hlow : lo ≤ c.low := listMin_le (List.mem_map_of_mem _ hmem) hlo
  have := hwf c hcdf
  linarith

/-! ## Claim theorems: the signal detector -/

/-- C1: on a series whose last bar has defined `upper`, `lower` and ATR and
which passes the channel-width filter, `detect_signal` returns a buy signal
with entry price the last close and stop distance `ATR * sl_atr_mult` when
the close strictly exceeds `upper`, the mirror sell signal when the close
is strictly below `lower`, and no signal otherwise; exact equality of the
close with `upper` (or `lower`) never triggers a signal. -/
theorem detect_signal_breakout_decision
    {df : List Candle} {p a : ℕ} {mult pct : ℚ} {lastBar : Candle}
    {u lo A : ℚ}
    (hlast : df.getLast? = some lastBar)
    (hu : upperAt df p (df.length - 1) = some u)
    (hlo : lowerAt df p (df.length - 1) = some lo)
    (hA : atrAt df a (df.length - 1) = some A)
    (hwf : ∀ c ∈ df, c.low ≤ c.high)
    (hfilter : ¬((u - lo) / lastBar.close < pct)) :
    (u < lastBar.close →
      detect_signal df p a mult pct
        = some ⟨Side.buy, A * mult, lastBar.close⟩) ∧
    (lastBar.close < lo →
      detect_signal df p a mult pct
        = some ⟨Side.sell, A * mult, lastBar.close⟩) ∧
    (lo ≤ lastBar.close → lastBar.close ≤ u →
      detect_signal df p a mult pct = none) ∧
    (lastBar.close = u ∨ lastBar.close = lo →
      detect_signal df p a mult pct = none) := by
  have hlou : lo ≤ u := lowerAt_le_upperAt hwf hu hlo
  simp only [detect_signal, hlast, hu, hlo, hA]
  rw [if_neg hfilter]
  refine ⟨?_, ?_, ?_, ?_⟩
  · intro h
    rw [if_pos h]
  · intro h
    rw [if_neg (by push_neg; linarith), if_pos h]
  · intro h1 h2
    rw [if_neg (not_lt.mpr h2), if_neg (not_lt.mpr h1)]
  · rintro (h | h)
    · rw [if_neg (by rw [h]; exact lt_irrefl u),
        if_neg (not_lt.mpr (h ▸ hlou))]
    · rw [if_neg (by push_neg; linarith), if_neg (not_lt.mpr (le_of_eq h.symm))]

theorem detect_signal_breakout_decision_witness :
    dfBreakout.getLast? = some (mkCandle 3 14 13 13) ∧
    upperAt dfBreakout 2 (dfBreakout.length - 1) = some 12 ∧
    lowerAt dfBreakout 2 (dfBreakout.length - 1) = some 10 ∧
    atrAt dfBreakout 2 (dfBreakout.length - 1) = some (5/2) ∧
    (∀ c ∈ dfBreakout, c.low ≤ c.high) ∧
    ¬(((12 : ℚ) - 10) / (mkCandle 3 14 13 13).close < 1/1000) ∧
    detect_signal dfBreakout 2 2 2 (1/1000)
      = some ⟨Side.buy, (5/2) * 2, 13⟩ := by
  have h1 : dfBreakout.getLast? = some (mkCandle 3 14 13 13) := by decide
  have h2 : upperAt dfBreakout 2 (dfBreakout.length - 1) = some 12 := by decide
  have h3 : lowerAt dfBreakout 2 (dfBreakout.length - 1) = some 10 := by decide
  have h4 : atrAt dfBreakout 2 (dfBreakout.length - 1) = some (5/2) := by
    simp [atrAt, trAt, dfBreakout, mkCandle, List.range_succ]
    norm_num
  have h5 : ∀ c ∈ dfBreakout, c.low ≤ c.high := by decide
  have h6 : ¬(((12 : ℚ) - 10) / (mkCandle 3 14 13 13).close < 1/1000) := by
    simp [mkCandle]
    norm_num
  exact ⟨h1, h2, h3, h4, h5, h6,
    (@detect_signal_breakout_decision dfBreakout 2 2 2 (1/1000)
      (mkCandle 3 14 13 13) 12 10 (5/2) h1 h2 h3 h4 h5 h6).1 (by decide)⟩

/-- C2: the channel bounds exclude the current bar: `upper` at index `t` is
the maximum of the highs of bars `t - dc_period .. t - 1` and `lower` the
minimum of their lows (the shift-by-one before the rolling window); and
replacing the last bar by any other candle (in particular one with an
extreme high) leaves `upper` and `lower` at the last index unchanged. -/
theorem channel_bounds_exclude_current_bar
    {df : List Candle} {p t : ℕ} (hp : 1 ≤ p) (hpt : p ≤ t)
    (ht : t < df.length) :
    upperAt df p t
        = listMax (((df.drop (t - p)).take p).map (fun c => c.high)) ∧
    lowerAt df p t
        = listMin (((df.drop (t - p)).take p).map (fun c => c.low)) ∧
    ∀ (dfPrev : List Candle) (b b' : Candle),
      upperAt (dfPrev ++ [b]) p dfPrev.length
          = upperAt (dfPrev ++ [b']) p dfPrev.length ∧
      lowerAt (dfPrev ++ [b]) p dfPrev.length
          = lowerAt (dfPrev ++ [b']) p dfPrev.length := by
  refine ⟨upperAt_eq_listMax hp hpt ht, lowerAt_eq_listMin hp hpt ht, ?_⟩
  intro dfPrev b b'
  have key : ∀ (g : Candle → Option ℚ) (c : Candle),
      shift1 ((dfPrev ++ [c]).map g) = none :: dfPrev.map g := by
    intro g c
    simp [shift1]
  constructor
  · unfold upperAt
    rw [key, key]
  · unfold lowerAt
    rw [key, key]

theorem channel_bounds_exclude_current_bar_witness :
    1 ≤ 2 ∧ 2 ≤ 3 ∧ 3 < dfBreakout.length ∧
    upperAt dfBreakout 2 3
        = listMax (((dfBreakout.drop (3 - 2)).take 2).map (fun c => c.high)) ∧
    upperAt (dfFlat ++ [mkCandle 4 1000000 100 100]) 2 dfFlat.length
        = upperAt (dfFlat ++ [mkCandle 4 100 100 100]) 2 dfFlat.length := by
  refine ⟨by decide, by decide, by decide, ?_, ?_⟩
  · exact (@channel_bounds_exclude_current_bar dfBreakout 2 3 (by decide)
      (by decide) (by decide)).1
  · exact ((@channel_bounds_exclude_current_bar dfBreakout 2 3 (by decide)
      (by decide) (by decide)).2.2 dfFlat
      (mkCandle 4 1000000 100 100) (mkCandle 4 100 100 100)).1

/-- C3: when fewer than `dc_period` prior completed bars exist (so that
`upper`, or the ATR, is undefined at the last bar), `detect_signal`
returns no signal rather than a trade signal or an error. -/
theorem detect_signal_insufficient_history
    {df : List Candle} {p a : ℕ} {mult pct : ℚ}
    (_hne : df ≠ [])
    (hshort : df.length - 1 < p ∨ atrAt df a (df.length - 1) = none) :
    detect_signal df p a mult pct = none := by
  cases hl : df.getLast? with
  | none => simp only [detect_signal, hl]
  | some lastBar =>
    rcases hshort with hshort | hA
    · have hup := upperAt_eq_none_of_lt df (p := p) (t := df.length - 1) hshort
      simp only [detect_signal, hl, hup]
    · cases hup : upperAt df p (df.length - 1) <;>
        cases hlo : lowerAt df p (df.length - 1) <;>
        simp only [detect_signal, hl, hup, hlo, hA]

theorem detect_signal_insufficient_history_witness :
    dfShort ≠ [] ∧
    (dfShort.length - 1 < 40 ∨ atrAt dfShort 14 (dfShort.length - 1) = none) ∧
    detect_signal dfShort 40 14 2 (1/500) = none := by
  refine ⟨by decide, Or.inl (by decide), ?_⟩
  exact @detect_signal_insufficient_history dfShort 40 14 2 (1/500)
    (by decide) (Or.inl (by decide))

/-- C4: if the channel is defined but its width relative to the last close,
`(upper - lower) / close`, is strictly below `min_channel_pct`, then
`detect_signal` returns no signal — for any position of the close,
in particular even when it strictly exceeds the prior high. -/
theorem detect_signal_channel_width_filter
    {df : List Candle} {p a : ℕ} {mult pct : ℚ} {lastBar : Candle}
    {u lo A : ℚ}
    (hlast : df.getLast? = some lastBar)
    (hu : upperAt df p (df.length - 1) = some u)
    (hlo : lowerAt df p (df.length - 1) = some lo)
    (hA : atrAt df a (df.length - 1) = some A)
    (hnarrow : (u - lo) / lastBar.close < pct) :
    detect_signal df p a mult pct = none := by
  simp only [detect_signal, hlast, hu, hlo, hA]
  rw [if_pos hnarrow]

theorem detect_signal_channel_width_filter_witness :
    dfNarrowBreak.getLast? = some (mkCandle 3 (201/2) 100 (2001/20)) ∧
    upperAt dfNarrowBreak 2 (dfNarrowBreak.length - 1) = some 100 ∧
    lowerAt dfNarrowBreak 2 (dfNarrowBreak.length - 1) = some 100 ∧
    atrAt dfNarrowBreak 2 (dfNarrowBreak.length - 1) = some (1/4) ∧
    (((100 : ℚ) - 100) / (mkCandle 3 (201/2) 100 (2001/20)).close < 1/500) ∧
    (100 : ℚ) < (mkCandle 3 (201/2) 100 (2001/20)).close ∧
    detect_signal dfNarrowBreak 2 2 2 (1/500) = none := by
  have h1 : dfNarrowBreak.getLast? = some (mkCandle 3 (201/2) 100 (2001/20)) := by
    rfl
  have h2 : upperAt dfNarrowBreak 2 (dfNarrowBreak.length - 1) = some 100 := by
    decide
  have h3 : lowerAt dfNarrowBreak 2 (dfNarrowBreak.length - 1) = some 100 := by
    decide
  have h4 : atrAt dfNarrowBreak 2 (dfNarrowBreak.length - 1) = some (1/4) := by
    simp [atrAt, trAt, dfNarrowBreak, mkCandle, List.range_succ]
    norm_num [abs_of_nonneg]
  have h5 : ((100 : ℚ) - 100) / (mkCandle 3 (201/2) 100 (2001/20)).close
      < 1/500 := by
    simp [mkCandle]
  exact ⟨h1, h2, h3, h4, h5, by norm_num [mkCandle],
    @detect_signal_channel_width_filter dfNarrowBreak 2 2 2 (1/500)
      (mkCandle 3 (201/2) 100 (2001/20)) 100 100 (1/4) h1 h2 h3 h4 h5⟩

/-! ## Lemmas and claim theorems: position sizing -/

theorem except_ok_bind {ε α β : Type _} (a : α) (f : α → Except ε β) :
    (Except.ok a >>= f) = f a := rfl

theorem except_error_bind {ε α β : Type _} (e : ε) (f : α → Except ε β) :
    (Except.error e >>= f) = Except.error e := rfl

theorem validate_positive_ok {x : ℚ} (n : String) (h : 0 < x) :
    validate_positive x n = Except.ok () := by
  rw [validate_positive, if_neg (not_le.mpr h)]

theorem validate_positive_err {x : ℚ} (n : String) (h : x ≤ 0) :
    validate_positive x n = Except.error (SizingError.notPositive n) := by
  rw [validate_positive, if_pos h]

theorem validate_risk_percent_ok {r : ℚ} (h1 : 0 < r) (h2 : r ≤ 100) :
    validate_risk_percent r = Except.ok () := by
  rw [validate_risk_percent, if_neg (not_not_intro ⟨h1, h2⟩)]

theorem validate_risk_percent_err {r : ℚ} (h : ¬(0 < r ∧ r ≤ 100)) :
    validate_risk_percent r = Except.error SizingError.riskOutOfRange := by
  rw [validate_risk_percent, if_pos h]

theorem calculate_risk_amount_ok {e r : ℚ} (he : 0 < e) (h1 : 0 < r)
    (h2 : r ≤ 100) : calculate_risk_amount e r = Except.ok (e * r / 100) := by
  simp [calculate_risk_amount, validate_positive_ok _ he,
    validate_risk_percent_ok h1 h2, except_ok_bind]

theorem calc_ok_of_pos {e r s v : ℚ} (inst : Option String) (he : 0 < e)
    (h1 : 0 < r) (h2 : r ≤ 100) (hs : 0 < s) (hv : 0 < v) :
    calculate_position_size e r s (some v) inst
      = Except.ok (pyRound2 (e * r / 100 / (s * v))) := by
  simp [calculate_position_size, validate_positive_ok _ he,
    validate_risk_percent_ok h1 h2, validate_positive_ok _ hs,
    validate_positive_ok _ hv, calculate_risk_amount_ok he h1 h2,
    except_ok_bind]

theorem calc_ok_of_instrument {e r s val : ℚ} {i : String} (he : 0 < e)
    (h1 : 0 < r) (h2 : r ≤ 100) (hs : 0 < s)
    (hl : PIP_VALUES.lookup i = some val) :
    calculate_position_size e r s none (some i)
      = Except.ok (pyRound2 (e * r / 100 / (s * val))) := by
  simp [calculate_position_size, validate_positive_ok _ he,
    validate_risk_percent_ok h1 h2, validate_positive_ok _ hs,
    get_pip_value, hl, calculate_risk_amount_ok he h1 h2, except_ok_bind]

theorem calc_err_equity {e r s : ℚ} (pv : Option ℚ) (inst : Option String)
    (he : e ≤ 0) :
    calculate_position_size e r s pv inst
      = Except.error (SizingError.notPositive "account_equity") := by
  simp [calculate_position_size, validate_positive_err _ he, except_error_bind]

theorem calc_err_risk {e r s : ℚ} (pv : Option ℚ) (inst : Option String)
    (he : 0 < e) (hr : ¬(0 < r ∧ r ≤ 100)) :
    calculate_position_size e r s pv inst
      = Except.error SizingError.riskOutOfRange := by
  simp [calculate_position_size, validate_positive_ok _ he,
    validate_risk_percent_err hr, except_ok_bind, except_error_bind]

theorem calc_err_stop {e r s : ℚ} (pv : Option ℚ) (inst : Option String)
    (he : 0 < e) (h1 : 0 < r) (h2 : r ≤ 100) (hs : s ≤ 0) :
    calculate_position_size e r s pv inst
      = Except.error (SizingError.notPositive "stop_loss_pips") := by
  simp [calculate_position_size, validate_positive_ok _ he,
    validate_risk_percent_ok h1 h2, validate_positive_err _ hs,
    except_ok_bind, except_error_bind]

theorem calc_err_pip_value {e r s v : ℚ} (inst : Option String)
    (he : 0 < e) (h1 : 0 < r) (h2 : r ≤ 100) (hs : 0 < s) (hv : v ≤ 0) :
    calculate_position_size e r s (some v) inst
      = Except.error (SizingError.notPositive "pip_value") := by
  simp [calculate_position_size, validate_positive_ok _ he,
    validate_risk_percent_ok h1 h2, validate_positive_ok _ hs,
    validate_positive_err _ hv, except_ok_bind, except_error_bind]

theorem calc_err_missing {e r s : ℚ}
    (he : 0 < e) (h1 : 0 < r) (h2 : r ≤ 100) (hs : 0 < s) :
    calculate_position_size e r s none none
      = Except.error SizingError.missingPipValueAndInstrument := by
  simp [calculate_position_size, validate_positive_ok _ he,
    validate_risk_percent_ok h1 h2, validate_positive_ok _ hs,
    except_ok_bind, except_error_bind]

theorem calc_err_unsupported {e r s : ℚ} {i : String}
    (he : 0 < e) (h1 : 0 < r) (h2 : r ≤ 100) (hs : 0 < s)
    (hl : PIP_VALUES.lookup i = none) :
    calculate_position_size e r s none (some i)
      = Except.error (SizingError.unsupportedInstrument i) := by
  simp [calculate_position_size, validate_positive_ok _ he,
    validate_risk_percent_ok h1 h2, validate_positive_ok _ hs,
    get_pip_value, hl, except_ok_bind, except_error_bind]

/-- C7: `calculate_position_size` computes
`(account_equity * risk_percent / 100) / (stop_loss_pips * pip_value)`
rounded to two decimals; in particular at equity 10000, risk 1%, stop 20
pips and pip value 10 it returns exactly 0.5 lots. -/
theorem calculate_position_size_formula :
    (∀ (e r s v : ℚ) (inst : Option String),
      0 < e → 0 < r → r ≤ 100 → 0 < s → 0 < v →
      calculate_position_size e r s (some v) inst
        = Except.ok (pyRound2 (e * r / 100 / (s * v)))) ∧
    calculate_position_size 10000 1 20 (some 10) none = Except.ok (1/2) := by
  constructor
  · intro e r s v inst he h1 h2 hs hv
    exact calc_ok_of_pos inst he h1 h2 hs hv
  · rw [calc_ok_of_pos none (by norm_num) (by norm_num) (by norm_num)
      (by norm_num) (by norm_num)]
    norm_num [pyRound2, pyRound]

theorem calculate_position_size_formula_witness :
    (0 : ℚ) < 10000 ∧ (0 : ℚ) < 1 ∧ (1 : ℚ) ≤ 100 ∧ (0 : ℚ) < 20 ∧
    (0 : ℚ) < 10 ∧
    calculate_position_size 10000 1 20 (some 10) none
      = Except.ok (pyRound2 (10000 * 1 / 100 / (20 * 10))) :=
  ⟨by norm_num, by norm_num, by norm_num, by norm_num, by norm_num,
    calculate_position_size_formula.1 10000 1 20 10 none (by norm_num)
      (by norm_num) (by norm_num) (by norm_num) (by norm_num)⟩

/-- C8: `calculate_position_size` returns a result (rather than raising a
validation error) exactly when `0 < account_equity`, `risk_percent` lies in
`(0, 100]`, `0 < stop_loss_pips`, and the pip value is usable (an explicit
positive `pip_value`, or no `pip_value` and a supported `instrument`). -/
theorem calculate_position_size_ok_iff
    (e r s : ℚ) (pv : Option ℚ) (inst : Option String) :
    (∃ q, calculate_position_size e r s pv inst = Except.ok q) ↔
      (0 < e ∧ 0 < r ∧ r ≤ 100 ∧ 0 < s ∧ pipValueUsable pv inst) := by
  constructor
  · rintro ⟨q, hq⟩
    by_cases he : 0 < e
    · by_cases hr : 0 < r ∧ r ≤ 100
      · by_cases hs : 0 < s
        · refine ⟨he, hr.1, hr.2, hs, ?_⟩
          cases pv with
          | some v =>
            by_cases hv : 0 < v
            · exact hv
            · rw [calc_err_pip_value inst he hr.1 hr.2 hs (le_of_not_lt hv)]
                at hq
              cases hq
          | none =>
            cases inst with
            | none =>
              rw [calc_err_missing he hr.1 hr.2 hs] at hq
              cases hq
            | some i =>
              cases hl : PIP_VALUES.lookup i with
              | none =>
                rw [calc_err_unsupported he hr.1 hr.2 hs hl] at hq
                cases hq
              | some val => simp [pipValueUsable, hl]
        · rw [calc_err_stop pv inst he hr.1 hr.2 (le_of_not_lt hs)] at hq
          cases hq
      · rw [calc_err_risk pv inst he hr] at hq
        cases hq
    · rw [calc_err_equity pv inst (le_of_not_lt he)] at hq
      cases hq
  · rintro ⟨he, h1, h2, hs, hu⟩
    cases pv with
    | some v => exact ⟨_, calc_ok_of_pos inst he h1 h2 hs hu⟩
    | none =>
      cases inst with
      | none => exact absurd hu (by simp [pipValueUsable])
      | some i =>
        obtain ⟨val, hl⟩ := Option.isSome_iff_exists.mp hu
        exact ⟨_, calc_ok_of_instrument he h1 h2 hs hl⟩

/-- C9: `pips_to_price` and `price_to_pips` are mutually inverse on every
supported instrument; in particular `pips_to_price(20, "EUR_USD") = 0.002`
and `price_to_pips(0.002, "EUR_USD") = 20`. -/
theorem pips_price_roundtrip :
    (∀ (p : ℚ) (i : String) (d : ℕ), PIP_CONVERSIONS.lookup i = some d →
      (pips_to_price p i).bind (fun pr => price_to_pips pr i)
        = Except.ok p) ∧
    pips_to_price 20 "EUR_USD" = Except.ok (1/500) ∧
    price_to_pips (1/500) "EUR_USD" = Except.ok 20 := by
  refine ⟨?_, ?_, ?_⟩
  · intro p i d hl
    simp only [pips_to_price, price_to_pips, hl, Except.bind]
    rw [mul_div_assoc, div_self (zpow_ne_zero _ (by norm_num)), mul_one]
  · simp [pips_to_price, PIP_CONVERSIONS, List.lookup]
    norm_num
  · simp [price_to_pips, PIP_CONVERSIONS, List.lookup]
    norm_num

theorem pips_price_roundtrip_witness :
    PIP_CONVERSIONS.lookup "USD_JPY" = some 2 ∧
    (pips_to_price 35 "USD_JPY").bind (fun pr => price_to_pips pr "USD_JPY")
      = Except.ok 35 :=
  ⟨rfl, pips_price_roundtrip.1 35 "USD_JPY" 2 rfl⟩

/-- C10: with an explicit `pip_value`, the `instrument` argument is never
consulted — the result is identical for every instrument — and the
"instrument not supported" error can never be raised. -/
theorem explicit_pip_value_ignores_instrument
    (e r s v : ℚ) (i1 i2 : Option String) :
    calculate_position_size e r s (some v) i1
        = calculate_position_size e r s (some v) i2 ∧
    ∀ (j : String), calculate_position_size e r s (some v) i1
        ≠ Except.error (SizingError.unsupportedInstrument j) := by
  constructor
  · rfl
  · intro j
    by_cases he : 0 < e
    · by_cases hr : 0 < r ∧ r ≤ 100
      · by_cases hs : 0 < s
        · by_cases hv : 0 < v
          · rw [calc_ok_of_pos i1 he hr.1 hr.2 hs hv]
            simp
          · rw [calc_err_pip_value i1 he hr.1 hr.2 hs (le_of_not_lt hv)]
            simp
        · rw [calc_err_stop (some v) i1 he hr.1 hr.2 (le_of_not_lt hs)]
          simp
      · rw [calc_err_risk (some v) i1 he hr]
        simp
    · rw [calc_err_equity (some v) i1 (le_of_not_lt he)]
      simp


theorem calculate_position_size_ok_iff_witness :
    (0 : ℚ) < 10000 ∧ (0 : ℚ) < 1 ∧ (1 : ℚ) ≤ 100 ∧ (0 : ℚ) < 20 ∧
    pipValueUsable (some 10) none ∧
    (∃ q, calculate_position_size 10000 1 20 (some 10) none
        = Except.ok q) := by
  have hu : pipValueUsable (some 10) none := by
    show (0 : ℚ) < 10
    norm_num
  exact ⟨by norm_num, by norm_num, by norm_num, by norm_num, hu,
    (calculate_position_size_ok_iff 10000 1 20 (some 10) none).mpr
      ⟨by norm_num, by norm_num, by norm_num, by norm_num, hu⟩⟩

theorem explicit_pip_value_ignores_instrument_witness :
    calculate_position_size 10000 1 20 (some 10) (some "EUR_USD")
        = calculate_position_size 10000 1 20 (some 10) (some "ZZZ_ZZZ") ∧
    calculate_position_size 10000 1 20 (some 10) (some "ZZZ_ZZZ")
        ≠ Except.error (SizingError.unsupportedInstrument "ZZZ_ZZZ") :=
  ⟨(explicit_pip_value_ignores_instrument 10000 1 20 10 (some "EUR_USD")
      (some "ZZZ_ZZZ")).1,
   (explicit_pip_value_ignores_instrument 10000 1 20 10 (some "ZZZ_ZZZ")
      none).2 "ZZZ_ZZZ"⟩

/-! ## Lemmas and claim theorems: the paginated fetcher -/

theorem mem_insertByTime {c a : Candle} {l : List Candle} :
    a ∈ insertByTime c l ↔ a = c ∨ a ∈ l := by
  induction l with
  | nil => simp [insertByTime]
  | cons d ds ih =>
    by_cases h : c.time ≤ d.time
    · rw [insertByTime, if_pos h]
      simp [List.mem_cons]
    · rw [insertByTime, if_neg h]
      simp only [List.mem_cons, ih]
      tauto

theorem insertByTime_sorted {c : Candle} {l : List Candle}
    (hl : l.Pairwise (fun a b => a.time ≤ b.time)) :
    (insertByTime c l).Pairwise (fun a b => a.time ≤ b.time) := by
  induction l with
  | nil => simp [insertByTime]
  | cons d ds ih =>
    rw [List.pairwise_cons] at hl
    obtain ⟨hd, hds⟩ := hl
    by_cases h : c.time ≤ d.time
    · rw [insertByTime, if_pos h]
      refine List.Pairwise.cons ?_ (List.Pairwise.cons hd hds)
      intro e he
      rcases List.mem_cons.mp he with rfl | he'
      · exact h
      · exact le_trans h (hd e he')
    · rw [insertByTime, if_neg h]
      refine List.Pairwise.cons ?_ (ih hds)
      intro e he
      rcases mem_insertByTime.mp he with rfl | he'
      · exact le_of_not_le h
      · exact hd e he'

theorem sortByTime_sorted (l : List Candle) :
    (sortByTime l).Pairwise (fun a b => a.time ≤ b.time) := by
  induction l with
  | nil => simp [sortByTime]
  | cons c cs ih => exact insertByTime_sorted ih

theorem mem_sortByTime {a : Candle} {l : List Candle} :
    a ∈ sortByTime l ↔ a ∈ l := by
  induction l with
  | nil => simp [sortByTime]
  | cons c cs ih =>
    rw [sortByTime, mem_insertByTime]
    simp [ih, List.mem_cons]

theorem dedupKeepLast_sublist (l : List Candle) :
    List.Sublist (dedupKeepLast l) l := by
  induction l with
  | nil => simp [dedupKeepLast]
  | cons c cs ih =>
    rw [dedupKeepLast]
    split
    · exact ih.cons c
    · exact ih.cons₂ c

theorem dedupKeepLast_pairwise_ne (l : List Candle) :
    (dedupKeepLast l).Pairwise (fun a b => a.time ≠ b.time) := by
  induction l with
  | nil => simp [dedupKeepLast]
  | cons c cs ih =>
    rw [dedupKeepLast]
    split
    · exact ih
    · next hany =>
      refine List.Pairwise.cons ?_ ih
      intro e he hte
      apply hany
      rw [List.any_eq_true]
      refine ⟨e, (dedupKeepLast_sublist cs).subset he, ?_⟩
      rw [beq_iff_eq]
      exact hte.symm

theorem candlesToDataframe_pairwise_lt (l : List Candle) :
    (candlesToDataframe l).Pairwise (fun a b => a.time < b.time) := by
  have h1 : (candlesToDataframe l).Pairwise (fun a b => a.time ≤ b.time) :=
    List.Pairwise.sublist (dedupKeepLast_sublist (sortByTime l))
      (sortByTime_sorted l)
  have h2 := dedupKeepLast_pairwise_ne (sortByTime l)
  exact (h1.and h2).imp (fun h => lt_of_le_of_ne h.1 h.2)

theorem mem_candlesToDataframe {a : Candle} {l : List Candle}
    (h : a ∈ candlesToDataframe l) : a ∈ l :=
  mem_sortByTime.mp ((dedupKeepLast_sublist _).subset h)

theorem insertByTime_perm (c : Candle) (l : List Candle) :
    List.Perm (insertByTime c l) (c :: l) := by
  induction l with
  | nil => exact List.Perm.refl _
  | cons d ds ih =>
    by_cases h : c.time ≤ d.time
    · rw [insertByTime, if_pos h]
    · rw [insertByTime, if_neg h]
      exact (ih.cons d).trans (List.Perm.swap c d ds)

theorem sortByTime_perm (l : List Candle) :
    List.Perm (sortByTime l) l := by
  induction l with
  | nil => exact List.Perm.refl _
  | cons c cs ih => exact (insertByTime_perm c (sortByTime cs)).trans (ih.cons c)

/-- The stable representative does satisfy the `sort_values` contract. -/
theorem sortValues_result_sortByTime (l : List Candle) :
    IsSortValuesResult l (sortByTime l) :=
  ⟨(sortByTime_perm l).symm, sortByTime_sorted l⟩

theorem dedupKeepLast_pairwise_lt {l : List Candle}
    (hl : l.Pairwise (fun a b => a.time ≤ b.time)) :
    (dedupKeepLast l).Pairwise (fun a b => a.time < b.time) := by
  have h1 := List.Pairwise.sublist (dedupKeepLast_sublist l) hl
  exact (h1.and (dedupKeepLast_pairwise_ne l)).imp
    (fun h => lt_of_le_of_ne h.1 h.2)

theorem exists_time_dedupKeepLast {l : List Candle} {tv : ℚ} :
    (∃ c ∈ dedupKeepLast l, c.time = tv) ↔ (∃ c ∈ l, c.time = tv) := by
  induction l with
  | nil => simp [dedupKeepLast]
  | cons c cs ih =>
    rw [dedupKeepLast]
    split
    · next hany =>
      rw [ih]
      constructor
      · rintro ⟨d, hd, hdt⟩
        exact ⟨d, List.mem_cons_of_mem _ hd, hdt⟩
      · rintro ⟨d, hd, hdt⟩
        rcases List.mem_cons.mp hd with rfl | hd'
        · obtain ⟨e, he, het⟩ := List.any_eq_true.mp hany
          exact ⟨e, he, by rw [beq_iff_eq.mp het]; exact hdt⟩
        · exact ⟨d, hd', hdt⟩
    · next hany =>
      constructor
      · rintro ⟨d, hd, hdt⟩
        rcases List.mem_cons.mp hd with rfl | hd'
        · exact ⟨d, List.mem_cons_self _ _, hdt⟩
        · exact ⟨d,
            List.mem_cons_of_mem _ ((dedupKeepLast_sublist cs).subset hd'), hdt⟩
      · rintro ⟨d, hd, hdt⟩
        rcases List.mem_cons.mp hd with rfl | hd'
        · exact ⟨d, List.mem_cons_self _ _, hdt⟩
        · obtain ⟨e, he, het⟩ := ih.mpr ⟨d, hd', hdt⟩
          exact ⟨e, List.mem_cons_of_mem _ he, het⟩
theorem getLast?_cons_of_ne_nil {α : Type _} {a : α} {l : List α}
    (h : l ≠ []) : (a :: l).getLast? = l.getLast? := by
  cases l with
  | nil => exact absurd rfl h
  | cons b bs => rfl

theorem filter_insertByTime_of_ne {c : Candle} {l : List Candle} {tv : ℚ}
    (hc : c.time ≠ tv) :
    (insertByTime c l).filter (fun d => decide (d.time = tv))
      = l.filter (fun d => decide (d.time = tv)) := by
  induction l with
  | nil => simp [insertByTime, hc]
  | cons d ds ih =>
    by_cases h : c.time ≤ d.time
    · rw [insertByTime, if_pos h]
      simp [List.filter_cons, hc]
    · rw [insertByTime, if_neg h]
      simp [List.filter_cons, ih]

theorem filter_insertByTime_of_eq {c : Candle} {l : List Candle} {tv : ℚ}
    (hc : c.time = tv) :
    (insertByTime c l).filter (fun d => decide (d.time = tv))
      = c :: l.filter (fun d => decide (d.time = tv)) := by
  induction l with
  | nil => simp [insertByTime, hc]
  | cons d ds ih =>
    by_cases h : c.time ≤ d.time
    · rw [insertByTime, if_pos h]
      simp [List.filter_cons, hc]
    · rw [insertByTime, if_neg h]
      have hd : d.time ≠ tv := by
        intro he
        exact h (le_of_eq (by rw [hc, he]))
      simp [List.filter_cons, hd, ih]

theorem filter_sortByTime (l : List Candle) (tv : ℚ) :
    (sortByTime l).filter (fun d => decide (d.time = tv))
      = l.filter (fun d => decide (d.time = tv)) := by
  induction l with
  | nil => rfl
  | cons c cs ih =>
    rw [sortByTime]
    by_cases hc : c.time = tv
    · rw [filter_insertByTime_of_eq hc, ih, List.filter_cons]
      simp [hc]
    · rw [filter_insertByTime_of_ne hc, ih, List.filter_cons]
      simp [hc]

theorem filter_dedupKeepLast (l : List Candle) (tv : ℚ) :
    (dedupKeepLast l).filter (fun d => decide (d.time = tv))
      = ((l.filter (fun d => decide (d.time = tv))).getLast?).toList := by
  induction l with
  | nil => rfl
  | cons c cs ih =>
    rw [dedupKeepLast]
    split
    · next hany =>
      rw [ih, List.filter_cons]
      by_cases hc : c.time = tv
      · obtain ⟨d, hdcs, hdt⟩ :
            ∃ d, d ∈ cs ∧ (d.time == c.time) = true := List.any_eq_true.mp hany
        have hne : cs.filter (fun d => decide (d.time = tv)) ≠ [] := by
          intro hnil
          have hmem : d ∈ cs.filter (fun d => decide (d.time = tv)) :=
            List.mem_filter.mpr ⟨hdcs, by
              rw [decide_eq_true_eq, beq_iff_eq.mp hdt, hc]⟩
          rw [hnil] at hmem
          cases hmem
        simp [hc, getLast?_cons_of_ne_nil hne]
      · simp [hc]
    · next hany =>
      rw [List.filter_cons]
      by_cases hc : c.time = tv
      · have hnone : cs.filter (fun d => decide (d.time = tv)) = [] := by
          rw [List.filter_eq_nil_iff]
          intro d hd
          rw [decide_eq_true_eq]
          intro hdt
          apply hany
          rw [List.any_eq_true]
          exact ⟨d, hd, by rw [beq_iff_eq, hdt, hc]⟩
        simp [List.filter_cons, hc, ih, hnone]
      · simp [List.filter_cons, hc, ih]
/-- C5 (amended): for pages whose candles all carry timestamps inside the
requested window, de-duplicating any time-ordered rearrangement that
`sort_values` may return (`IsSortValuesResult`; its default quicksort does
not fix the order of equal timestamps) yields a series strictly increasing
in time with no duplicate timestamps, every retained candle (in particular
the first and the last) has its timestamp within `[fromT, toT]` and is one
of the input candles, every input timestamp is retained — and under the
stable tie order (`sortByTime`) the retained candle per timestamp is the
last (later-fetched) occurrence of the concatenated pages. -/
theorem fetcher_output_sorted_dedup_window
    (pages : List (List Candle)) (fromT toT : ℚ) (sorted : List Candle)
    (hsort : IsSortValuesResult pages.flatten sorted)
    (hw : ∀ pg ∈ pages, ∀ c ∈ pg, fromT ≤ c.time ∧ c.time ≤ toT) :
    (dedupKeepLast sorted).Pairwise (fun a b => a.time < b.time) ∧
    (∀ c ∈ dedupKeepLast sorted, fromT ≤ c.time ∧ c.time ≤ toT) ∧
    (∀ c ∈ dedupKeepLast sorted, c ∈ pages.flatten) ∧
    (∀ tv : ℚ, (∃ c ∈ dedupKeepLast sorted, c.time = tv)
        ↔ (∃ c ∈ pages.flatten, c.time = tv)) ∧
    (∀ tv : ℚ,
      (dedupKeepLast (sortByTime pages.flatten)).filter
          (fun d => decide (d.time = tv))
        = ((pages.flatten.filter (fun d => decide (d.time = tv))).getLast?).toList) := by
  obtain ⟨hperm, hsorted⟩ := hsort
  have hmem : ∀ c ∈ dedupKeepLast sorted, c ∈ pages.flatten := by
    intro c hc
    exact hperm.symm.subset ((dedupKeepLast_sublist sorted).subset hc)
  refine ⟨dedupKeepLast_pairwise_lt hsorted, ?_, hmem, ?_, ?_⟩
  · intro c hc
    obtain ⟨pg, hpg, hcpg⟩ := List.mem_flatten.mp (hmem c hc)
    exact hw pg hpg c hcpg
  · intro tv
    rw [exists_time_dedupKeepLast]
    constructor
    · rintro ⟨d, hd, hdt⟩
      exact ⟨d, hperm.mem_iff.mpr hd, hdt⟩
    · rintro ⟨d, hd, hdt⟩
      exact ⟨d, hperm.mem_iff.mp hd, hdt⟩
  · intro tv
    rw [filter_dedupKeepLast, filter_sortByTime]

theorem fetcher_output_sorted_dedup_window_witness :
    IsSortValuesResult pagesW.flatten (sortByTime pagesW.flatten) ∧
    (∀ pg ∈ pagesW, ∀ c ∈ pg, (0 : ℚ) ≤ c.time ∧ c.time ≤ 10) ∧
    (dedupKeepLast (sortByTime pagesW.flatten)).Pairwise
        (fun a b => a.time < b.time) ∧
    (dedupKeepLast (sortByTime pagesW.flatten)).filter
        (fun d => decide (d.time = 1))
      = ((pagesW.flatten.filter (fun d => decide (d.time = 1))).getLast?).toList := by
  have hs := sortValues_result_sortByTime pagesW.flatten
  have hw : ∀ pg ∈ pagesW, ∀ c ∈ pg, (0 : ℚ) ≤ c.time ∧ c.time ≤ 10 := by
    decide
  exact ⟨hs, hw,
    (fetcher_output_sorted_dedup_window pagesW 0 10 _ hs hw).1,
    (fetcher_output_sorted_dedup_window pagesW 0 10 _ hs hw).2.2.2.2 1⟩

/-- C5 counterexample: `sortedAltW` is an admissible `sort_values` result
for `pagesW.flatten` (a time-ordered permutation, as the default unstable
quicksort permits) on which `drop_duplicates(keep="last")` retains the
EARLIER-fetched of the two candles sharing timestamp 1 — so the program
does not guarantee that the later-fetched occurrence is kept. -/
theorem fetcher_keep_later_counterexample :
    IsSortValuesResult pagesW.flatten sortedAltW ∧
    (dedupKeepLast sortedAltW).filter (fun d => decide (d.time = 1))
      ≠ ((pagesW.flatten.filter (fun d => decide (d.time = 1))).getLast?).toList := by
  refine ⟨⟨?_, by decide⟩, by decide⟩
  show List.Perm
    [mkCandle 0 10 9 9, mkCandle 1 11 10 10, mkCandle 1 12 11 11,
     mkCandle 2 13 12 12]
    [mkCandle 0 10 9 9, mkCandle 1 12 11 11, mkCandle 1 11 10 10,
     mkCandle 2 13 12 12]
  exact List.Perm.cons _ (List.Perm.swap _ _ _)

/-- C6: when the first upstream page is empty, pagination stops at once
(one unit of fuel suffices, the accumulated list stays empty and the
request counter stays 0) and `fetch_historical_data` returns the empty
table rather than an error. -/
theorem fetch_empty_first_page
    (getCandles : ℚ → ℚ → List Candle) (candleSeconds : ℚ) (maxCandles : ℕ)
    (fromDt toDt : ℚ) (fuel : ℕ) (hfuel : 1 ≤ fuel)
    (hpage : getCandles fromDt
        (min (fromDt + candleSeconds * maxCandles) toDt) = []) :
    fetch_with_pagination getCandles candleSeconds maxCandles fromDt toDt fuel
      = some ([], 0) ∧
    fetch_historical_data getCandles candleSeconds maxCandles fromDt toDt fuel
      = some [] := by
  obtain ⟨n, rfl⟩ : ∃ n, fuel = n + 1 := ⟨fuel - 1, by omega⟩
  have h1 : fetch_with_pagination getCandles candleSeconds maxCandles
      fromDt toDt (n + 1) = some ([], 0) := by
    rw [fetch_with_pagination, fetchLoop]
    by_cases h : fromDt < toDt
    · rw [if_pos h]
      simp [hpage]
    · rw [if_neg h]
  refine ⟨h1, ?_⟩
  rw [fetch_historical_data, h1]
  rfl

theorem fetch_empty_first_page_witness :
    (1 : ℕ) ≤ 1 ∧
    (fun (_ _ : ℚ) => ([] : List Candle)) 0
        (min ((0 : ℚ) + 60 * (5000 : ℕ)) 3600) = [] ∧
    fetch_historical_data (fun _ _ => []) 60 5000 0 3600 1 = some [] :=
  ⟨le_refl 1, rfl,
    (fetch_empty_first_page (fun _ _ => []) 60 5000 0 3600 1 (le_refl 1)
      rfl).2⟩

end Trading
